import Mathlib

/-!
# ProTranslate — verification of the ingestion / translation / export pipeline

Shallow embedding of the repository's core logic:

* `src/services/geminiService.ts` — `translateTextStream`
* `src/utils/fileHelpers.ts` (unnamed part) — `readPdfAsText`, `parseFileName`,
  `downloadFile`
* `App.tsx` (unnamed part) — `handleTranslate`
* `src/constants.ts` (unnamed part) — `EXPORT_EXTENSIONS`

Asynchronous streams are modelled as the finite list of chunks the provider
delivers before completing (or before throwing); DOM side effects
(blob download, print window) become an explicit `Artifact` value.
-/

namespace ProTranslate

/-- `LoadingState` from `src/types.ts`. -/
inductive LoadingState where
  | idle
  | reading
  | translating
  | success
  | error
deriving DecidableEq, Repr

/-- The slice of the App component state that `handleTranslate` touches:
`status`, `outputText` and `progress`. -/
structure AppState where
  status : LoadingState
  outputText : String
  progress : ℚ
deriving DecidableEq, Repr

/-- The JS `String.prototype.trim` whitespace class (ASCII part plus the
common Unicode members: NBSP, BOM, line/paragraph separators). -/
def jsWhitespace (c : Char) : Bool :=
  c = ' ' || c = '\t' || c = '\n' || c = '\r' || c.toNat = 11 || c.toNat = 12 ||
    c.toNat = 0xA0 || c.toNat = 0xFEFF || c.toNat = 0x2028 || c.toNat = 0x2029

/-- The JS test `!s.trim()` — true exactly when `s` is empty or
whitespace-only, i.e. when every character is JS whitespace. -/
def trimEmpty (s : String) : Bool :=
  s.data.all jsWhitespace

/-- A provider stream chunk: its optional `text` field.  `none` models an
absent/undefined `text`; `some ""` an empty one — both are falsy in JS. -/
def chunkText (c : Option String) : Option String :=
  match c with
  | none => none
  | some t => if t = "" then none else some t

/-- `translateTextStream` from `src/services/geminiService.ts`, as the list of
fragments the async generator yields when the provider delivers
`providerChunks`: it returns immediately on whitespace-only input, and yields
`chunk.text` only when that field is truthy. -/
def translateTextStream (text : String) (providerChunks : List (Option String)) :
    List String :=
  if trimEmpty text then []
  else providerChunks.filterMap chunkText

/-- `parseFileName` in the file-helpers module uses `String.lastIndexOf`;
this is the index of the last occurrence of `c` in `l`, if any. -/
def lastIndexOf (c : Char) : List Char → Option Nat
  | [] => none
  | a :: rest =>
    match lastIndexOf c rest with
    | some i => some (i + 1)
    | none => if a = c then some 0 else none

/-- `parseFileName` from the file-helpers module: split at the last dot;
with no dot the whole name is the base and the extension defaults to
`".txt"`. -/
def parseFileName (fileName : String) : String × String :=
  match lastIndexOf '.' fileName.data with
  | none => (fileName, ".txt")
  | some i => (⟨fileName.data.take i⟩, ⟨fileName.data.drop i⟩)

/-! ## Streaming translation orchestrator (`handleTranslate` in the App
component)

The async loop is modelled by folding `stepTranslate` over the list of
fragments the stream yields; `loopState inputText chunks i` is the component
state after the first `i` fragments have been applied. -/

/-- `inputText.length * 1.2`, the heuristic expected output length. -/
def estimatedLength (inputText : String) : ℚ :=
  (inputText.length : ℚ) * (12 / 10)

/-- The state right after `setStatus('translating'); setOutputText('');
setProgress(0)`. -/
def initTranslating : AppState :=
  { status := .translating, outputText := "", progress := 0 }

/-- One iteration of the `for await` body: append the chunk, recompute the
raw progress from the accumulated length, and cap it at 95. -/
def stepTranslate (est : ℚ) (st : AppState) (chunk : String) : AppState :=
  let newText := st.outputText ++ chunk
  let rawProgress := (newText.length : ℚ) / est * 100
  { st with outputText := newText, progress := min rawProgress 95 }

/-- The component state after the first `i` chunks of the stream. -/
def loopState (inputText : String) (chunks : List String) (i : Nat) : AppState :=
  (chunks.take i).foldl (stepTranslate (estimatedLength inputText)) initTranslating

/-- `handleTranslate` when the stream completes normally after yielding
`chunks`: the whitespace guard returns early leaving the state `pre`
untouched; otherwise the loop runs and then `setProgress(100);
setStatus('success')`. -/
def handleTranslate (pre : AppState) (inputText : String) (chunks : List String) :
    AppState :=
  if trimEmpty inputText then pre
  else
    { loopState inputText chunks chunks.length with progress := 100, status := .success }

/-- `handleTranslate` when the stream throws after yielding `consumed`
chunks: the catch block only runs `setStatus('error')`. -/
def handleTranslateError (pre : AppState) (inputText : String)
    (consumed : List String) : AppState :=
  if trimEmpty inputText then pre
  else { loopState inputText consumed consumed.length with status := .error }

/-- The sequence of `setStatus` calls one `handleTranslate` run performs. -/
def statusSets (inputText : String) (errored : Bool) : List LoadingState :=
  if trimEmpty inputText then []
  else [.translating, if errored then .error else .success]

/-! ## PDF text extraction (`readPdfAsText` in the file-helpers module) -/

/-- JS `Math.round` on a non-negative rational: round half away from zero. -/
def jsRound (q : ℚ) : ℤ :=
  (q + 1 / 2).floor

/-- The page loop of `readPdfAsText`: page counter `i` runs from 1 to
`totalPages`; each page's items are joined with a single space, `'\n\n'` is
appended after each page, and `Math.round((i / totalPages) * 100)` is
reported after each page. Returns `(fullText, progressReports)`. -/
def readPdfGo (totalPages : Nat) : Nat → List (List String) → String × List ℤ
  | _, [] => ("", [])
  | i, items :: rest =>
    let pageText := String.intercalate " " items
    let restRes := readPdfGo totalPages (i + 1) rest
    (pageText ++ "\n\n" ++ restRes.1, jsRound ((i : ℚ) / (totalPages : ℚ) * 100) :: restRes.2)

/-- `readPdfAsText`, with the document given as its list of pages, each page
the list of its text items (`item.str`). -/
def readPdfAsText (pages : List (List String)) : String × List ℤ :=
  readPdfGo pages.length 1 pages

/-! ## Document exporter (`downloadFile` in the file-helpers module) -/

/-- The test `/[؀-ۿ]/.test(content)`: does the content contain any
character of the Arabic/Persian Unicode block. -/
def containsPersian (content : String) : Bool :=
  content.data.any fun c => 0x0600 ≤ c.toNat && c.toNat ≤ 0x06FF

/-- JS `toLowerCase` restricted to its ASCII action (the extension strings
involved are ASCII). -/
def jsToLowerCase (s : String) : String :=
  ⟨s.data.map Char.toLower⟩

/-- `(extension.startsWith('.') ? extension : '.' + extension).toLowerCase()`. -/
def safeExtension (extension : String) : String :=
  jsToLowerCase (if extension.data.head? = some '.' then extension else "." ++ extension)

/-- JS `content.split('\n')` on the character list: split at every separator
occurrence, keeping empty pieces, `[[]]` on empty input. -/
def splitOnChar (c : Char) : List Char → List (List Char)
  | [] => [[]]
  | a :: rest =>
    let r := splitOnChar c rest
    if a = c then [] :: r
    else
      match r with
      | [] => [[a]]
      | h :: t => (a :: h) :: t

/-- `content.split('\n')` as a list of strings. -/
def splitNewlines (content : String) : List String :=
  (splitOnChar '\n' content.data).map fun l => ⟨l⟩

/-- The print-path body: non-blank lines become `<p>…</p>`, blank lines a
`<br>`, joined with `''`. -/
def pdfFormattedContent (content : String) : String :=
  String.join ((splitNewlines content).map fun line =>
    if trimEmpty line then "<br>" else "<p>" ++ line ++ "</p>")

/-- One Word-export paragraph element with its alignment and direction
attributes, exactly as the template literal builds it. -/
def docxParagraph (textAlign dir line : String) : String :=
  "<p align=\"" ++ textAlign ++ "\" dir=\"" ++ dir ++ "\" style=\"text-align:" ++
    textAlign ++ "; direction:" ++ dir ++ "; unicode-bidi:embed\">" ++ line ++ "</p>"

/-- The Word-export paragraph list: direction and alignment are computed once
from the whole content, then every line is mapped; blank lines become
`<p>&nbsp;</p>`. -/
def docxParagraphList (content : String) : List String :=
  let isRtl := containsPersian content
  let dir := if isRtl then "rtl" else "ltr"
  let textAlign := if isRtl then "right" else "left"
  (splitNewlines content).map fun line =>
    if trimEmpty line then "<p>&nbsp;</p>" else docxParagraph textAlign dir line

/-- The Word-export HTML header (CSS braces and quotes escaped; the template
literal's insignificant indentation whitespace is not reproduced). -/
def docxHeader (isRtl : Bool) : String :=
  "<html xmlns:o=\x27urn:schemas-microsoft-com:office:office\x27 xmlns:w=\x27urn:schemas-microsoft-com:office:word\x27 xmlns=\x27http://www.w3.org/TR/REC-html40\x27><head><meta charset=\x27utf-8\x27><style>body \x7b font-family: \x27Arial\x27, sans-serif; \x7d p.MsoNormal \x7b mso-style-parent: \"\"; margin-bottom: .0001pt; font-family: \"Arial\", \"sans-serif\"; " ++
    (if isRtl then "font-family: \"Vazirmatn\", \"Arial\", sans-serif; mso-bidi-font-family: \"Arial\";"
     else "") ++
    " \x7d</style></head><body lang=EN-US style=\x27tab-interval:.5in\x27>"

/-- The MIME chain of the plain/markup branch. -/
def plainMimeType (safeExt : String) : String :=
  if safeExt = ".json" then "application/json"
  else if safeExt = ".html" then "text/html"
  else if safeExt = ".csv" then "text/csv"
  else if safeExt = ".xml" then "text/xml"
  else if safeExt = ".md" then "text/markdown"
  else "text/plain"

/-- The Word container MIME type. -/
def wordMime : String :=
  "application/vnd.openxmlformats-officedocument.wordprocessingml.document"

/-- The artifact `downloadFile` hands to the host: either a blob download
(payload, MIME type, download name), or — for the print strategy — the
generated page, recorded through the values interpolated into its HTML
(document direction, body alignment, body font family, formatted body,
title). -/
inductive Artifact where
  | download (payload : String) (mimeType : String) (downloadName : String)
  | printPage (docDir : String) (bodyAlign : String) (bodyFont : String)
      (formattedContent : String) (title : String)
deriving DecidableEq, Repr

/-- `downloadFile(content, filename, extension)`: normalize the extension,
then dispatch on it — `.pdf` builds the print page, `.docx`/`.doc` the Word
HTML blob (BOM-prefixed), anything else the plain blob (BOM-prefixed) with
the mapped MIME type. -/
def downloadFile (content filename extension : String) : Artifact :=
  let safeExt := safeExtension extension
  if safeExt = ".pdf" then
    let isRtl := containsPersian content
    Artifact.printPage (if isRtl then "rtl" else "ltr")
      (if isRtl then "right" else "left")
      (if isRtl then "\x27Vazirmatn\x27, sans-serif" else "\x27Inter\x27, sans-serif")
      (pdfFormattedContent content) filename
  else if safeExt = ".docx" || safeExt = ".doc" then
    let isRtl := containsPersian content
    let sourceHTML := docxHeader isRtl ++ String.join (docxParagraphList content) ++
      "</body></html>"
    Artifact.download ("\uFEFF" ++ sourceHTML) wordMime (filename ++ safeExt)
  else
    Artifact.download ("\uFEFF" ++ content) (plainMimeType safeExt ++ ";charset=utf-8")
      (filename ++ safeExt)

/-- `EXPORT_EXTENSIONS` from `src/constants.ts`. -/
def EXPORT_EXTENSIONS : List String :=
  [".txt", ".md", ".json", ".html", ".csv", ".xml", ".srt", ".vtt", ".pdf", ".docx"]

/-- Claim-side definition following the spec's words for C1 (per-physical-line
direction): the direction and alignment of each Word-export paragraph are
decided from that line alone, independently of the rest of the content. -/
def docxParagraphListPerLine (content : String) : List String :=
  (splitNewlines content).map fun line =>
    if trimEmpty line then "<p>&nbsp;</p>"
    else
      docxParagraph (if containsPersian line then "right" else "left")
        (if containsPersian line then "rtl" else "ltr") line

theorem lastIndexOf_none {c : Char} {l : List Char} (h : lastIndexOf c l = none) :
    c ∉ l := by
  induction l with
  | nil => simp
  | cons a rest ih =>
    simp only [lastIndexOf] at h
    cases hrest : lastIndexOf c rest with
    | some i => simp [hrest] at h
    | none =>
      rw [hrest] at h
      simp only [List.mem_cons, not_or]
      refine ⟨?_, ih hrest⟩
      intro hac
      simp [← hac] at h

theorem lastIndexOf_spec {c : Char} {l : List Char} {i : Nat}
    (h : lastIndexOf c l = some i) :
    i < l.length ∧ l.getD i ' ' = c ∧ c ∉ l.drop (i + 1) := by
  induction l generalizing i with
  | nil => simp [lastIndexOf] at h
  | cons a rest ih =>
    simp only [lastIndexOf] at h
    cases hrest : lastIndexOf c rest with
    | some j =>
      rw [hrest] at h
      obtain ⟨hlt, hget, hnot⟩ := ih hrest
      cases h
      refine ⟨by simpa using Nat.succ_lt_succ hlt, by simpa using hget, by simpa using hnot⟩
    | none =>
      rw [hrest] at h
      by_cases hac : a = c
      · simp only [hac, if_pos rfl] at h
        cases h
        exact ⟨by simp, by simpa using hac, by simpa using lastIndexOf_none hrest⟩
      · simp [hac] at h

theorem lastIndexOf_eq_none {c : Char} {l : List Char} (h : c ∉ l) :
    lastIndexOf c l = none := by
  induction l with
  | nil => rfl
  | cons a rest ih =>
    simp only [List.mem_cons, not_or] at h
    simp [lastIndexOf, ih h.2, h.1, Ne.symm h.1]

theorem lastIndexOf_isSome {c : Char} {l : List Char} (h : c ∈ l) :
    ∃ i, lastIndexOf c l = some i := by
  cases hl : lastIndexOf c l with
  | none => exact absurd h (lastIndexOf_none hl)
  | some i => exact ⟨i, rfl⟩

/-- C7: for every filename, `parseFileName` returns as base everything before
the last dot and as extension the last dot plus what follows (so base and
extension concatenate back to the filename, the extension starts with a dot
and contains no later dot); with no dot the whole name is the base and the
extension defaults to `".txt"`.  `"report.v2.json"` and `"README"` behave as
the spec's examples state. -/
theorem parseFileName_spec :
    (∀ fileName : String, '.' ∉ fileName.data →
      parseFileName fileName = (fileName, ".txt")) ∧
    (∀ fileName : String, '.' ∈ fileName.data →
      (parseFileName fileName).1 ++ (parseFileName fileName).2 = fileName ∧
      (parseFileName fileName).2.data.head? = some '.' ∧
      '.' ∉ (parseFileName fileName).2.data.tail) ∧
    parseFileName "report.v2.json" = ("report.v2", ".json") ∧
    parseFileName "README" = ("README", ".txt") := by
  refine ⟨?_, ?_, by decide, by decide⟩
  · intro fileName h
    simp [parseFileName, lastIndexOf_eq_none h]
  · intro fileName h
    obtain ⟨i, hi⟩ := lastIndexOf_isSome h
    obtain ⟨hlt, hget, hnot⟩ := lastIndexOf_spec hi
    simp only [parseFileName, hi]
    refine ⟨?_, ?_, ?_⟩
    · show String.mk (fileName.data.take i ++ fileName.data.drop i) = fileName
      rw [List.take_append_drop]
    · have : fileName.data.get? i = some '.' := by
        rw [List.getD_eq_getElem _ _ hlt] at hget
        rw [List.get?_eq_get hlt, List.get_eq_getElem, hget]
      simpa [List.head?_drop] using this
    · simpa [List.tail_drop] using hnot

theorem parseFileName_spec_witness :
    ('.' ∈ "report.v2.json".data) ∧
    ((parseFileName "report.v2.json").1 ++ (parseFileName "report.v2.json").2
        = "report.v2.json" ∧
      (parseFileName "report.v2.json").2.data.head? = some '.' ∧
      '.' ∉ (parseFileName "report.v2.json").2.data.tail) :=
  ⟨by decide, parseFileName_spec.2.1 "report.v2.json" (by decide)⟩

/-- C10: every fragment the streaming generator yields is a non-empty string:
chunks whose `text` field is empty or absent are filtered out. -/
theorem translateTextStream_fragments_nonempty (text : String)
    (providerChunks : List (Option String)) (f : String)
    (hf : f ∈ translateTextStream text providerChunks) : f ≠ "" := by
  unfold translateTextStream at hf
  by_cases h : trimEmpty text
  · simp [h] at hf
  · rw [if_neg h] at hf
    obtain ⟨c, _, hc⟩ := List.mem_filterMap.mp hf
    cases c with
    | none => simp [chunkText] at hc
    | some t =>
      simp only [chunkText] at hc
      by_cases ht : t = ""
      · simp [ht] at hc
      · rw [if_neg ht] at hc
        cases hc
        exact ht

theorem translateTextStream_fragments_nonempty_witness :
    ("a" ∈ translateTextStream "hi" [some "a", none, some ""]) ∧ "a" ≠ "" :=
  ⟨by decide,
    translateTextStream_fragments_nonempty "hi" [some "a", none, some ""] "a" (by decide)⟩

theorem data_append (a b : String) : (a ++ b).data = a.data ++ b.data := rfl

theorem join_nil : String.join [] = "" := rfl

theorem join_cons (a : String) (l : List String) :
    String.join (a :: l) = a ++ String.join l := by
  apply String.ext
  simp [String.data_join, data_append]

theorem join_append (l m : List String) :
    String.join (l ++ m) = String.join l ++ String.join m := by
  apply String.ext
  simp [String.data_join, data_append]

theorem join_singleton (a : String) : String.join [a] = a := by
  rw [join_cons, join_nil, String.append_empty]

theorem foldl_stepTranslate_outputText (e : ℚ) (l : List String) (st : AppState) :
    (l.foldl (stepTranslate e) st).outputText = st.outputText ++ String.join l := by
  induction l generalizing st with
  | nil => rw [List.foldl_nil, join_nil, String.append_empty]
  | cons a t ih =>
    rw [List.foldl_cons, ih, join_cons, ← String.append_assoc]
    rfl

theorem loopState_outputText (it : String) (cs : List String) (i : Nat) :
    (loopState it cs i).outputText = String.join (cs.take i) := by
  rw [loopState, foldl_stepTranslate_outputText]
  exact String.empty_append _

theorem loopState_stable (it : String) (cs : List String) {i : Nat}
    (h : cs.length ≤ i) : loopState it cs i = loopState it cs cs.length := by
  unfold loopState
  rw [List.take_of_length_le h, List.take_length]

theorem loopState_succ (it : String) (cs : List String) {i : Nat}
    (h : i < cs.length) :
    loopState it cs (i + 1)
      = stepTranslate (estimatedLength it) (loopState it cs i) (cs.getD i "") := by
  unfold loopState
  rw [List.take_succ, List.foldl_append, List.getElem?_eq_getElem h]
  simp [List.getD_eq_getElem?_getD, List.getElem?_eq_getElem h]

theorem join_take_succ {cs : List String} {i : Nat} (h : i < cs.length) :
    String.join (cs.take (i + 1)) = String.join (cs.take i) ++ cs.getD i "" := by
  rw [List.take_succ, join_append, List.getElem?_eq_getElem h]
  simp [join_singleton, List.getD_eq_getElem?_getD, List.getElem?_eq_getElem h]

theorem take_succ_ne_nil {cs : List String} {i : Nat} (h : i < cs.length) :
    cs.take (i + 1) ≠ [] := by
  have hlen : (cs.take (i + 1)).length = min (i + 1) cs.length := List.length_take _ _
  intro hempty
  rw [hempty] at hlen
  simp only [List.length_nil] at hlen
  omega

theorem getD_of_length_le {cs : List String} {i : Nat} (h : cs.length ≤ i) :
    cs.getD i "" = "" := by
  rw [List.getD_eq_getD_get?, List.get?_eq_none.mpr h]
  rfl

theorem loopState_growth (it : String) (cs : List String) (i : Nat) :
    (loopState it cs (i + 1)).outputText
      = (loopState it cs i).outputText ++ cs.getD i "" := by
  by_cases hi : i < cs.length
  · rw [loopState_outputText, loopState_outputText, join_take_succ hi]
  · rw [loopState_stable it cs (Nat.le_succ_of_le (le_of_not_lt hi)),
      loopState_stable it cs (le_of_not_lt hi),
      getD_of_length_le (le_of_not_lt hi), String.append_empty]

theorem loopState_progress (it : String) (cs : List String) (i : Nat) :
    (loopState it cs i).progress =
      if cs.take i = [] then 0
      else min (((String.join (cs.take i)).length : ℚ) / estimatedLength it * 100) 95 := by
  induction i with
  | zero => simp [loopState, initTranslating]
  | succ i ih =>
    by_cases hi : i < cs.length
    · have htake := take_succ_ne_nil hi
      rw [loopState_succ it cs hi, if_neg htake]
      simp only [stepTranslate]
      rw [loopState_outputText, ← join_take_succ hi]
    · have h1 : cs.take (i + 1) = cs.take i := by
        rw [List.take_of_length_le (le_of_not_lt hi),
          List.take_of_length_le (Nat.le_succ_of_le (le_of_not_lt hi))]
      have h2 : loopState it cs (i + 1) = loopState it cs i := by
        unfold loopState
        rw [h1]
      rw [h2, h1]
      exact ih

theorem estimatedLength_pos {it : String} (h : trimEmpty it = false) :
    0 < estimatedLength it := by
  have hne : it.data ≠ [] := by
    intro hd
    rw [trimEmpty, hd] at h
    simp at h
  have hlen : 0 < it.length := by
    rw [show it.length = it.data.length from rfl]
    exact List.length_pos.mpr hne
  unfold estimatedLength
  have : (0 : ℚ) < (it.length : ℚ) := by exact_mod_cast hlen
  nlinarith

theorem loopState_progress_le (it : String) (cs : List String) (i : Nat) :
    (loopState it cs i).progress ≤ 95 := by
  rw [loopState_progress]
  split
  · norm_num
  · exact min_le_right _ _

theorem loopState_progress_mono {it : String} (cs : List String)
    (h : trimEmpty it = false) (i : Nat) :
    (loopState it cs i).progress ≤ (loopState it cs (i + 1)).progress := by
  have e_pos := estimatedLength_pos h
  by_cases hi : i < cs.length
  · have htake := take_succ_ne_nil hi
    rw [loopState_progress it cs i, loopState_progress it cs (i + 1), if_neg htake]
    by_cases h0 : cs.take i = []
    · rw [if_pos h0]
      apply le_min
      · positivity
      · norm_num
    · rw [if_neg h0]
      refine min_le_min ?_ le_rfl
      refine mul_le_mul_of_nonneg_right ?_ (by norm_num)
      refine (div_le_div_iff_of_pos_right e_pos).mpr ?_
      have : (String.join (cs.take i)).length ≤ (String.join (cs.take (i + 1))).length := by
        rw [join_take_succ hi, String.length_append]
        exact Nat.le_add_right _ _
      exact_mod_cast this
  · rw [loopState_stable it cs (Nat.le_succ_of_le (le_of_not_lt hi)),
      loopState_stable it cs (le_of_not_lt hi)]

/-- C3: during an in-flight translate the accumulated output only grows —
each step appends the arriving fragment to the previous accumulation — the
progress value is non-decreasing, progress never exceeds 95 while the stream
is open, and `handleTranslate` sets progress to exactly 100 (with status
`success`) only after the stream completes. -/
theorem translate_progress_invariants (pre : AppState) (inputText : String)
    (chunks : List String) (h : trimEmpty inputText = false) :
    (∀ i, (loopState inputText chunks (i + 1)).outputText
        = (loopState inputText chunks i).outputText ++ chunks.getD i "") ∧
    (∀ i, (loopState inputText chunks i).progress
        ≤ (loopState inputText chunks (i + 1)).progress) ∧
    (∀ i, (loopState inputText chunks i).progress ≤ 95) ∧
    (handleTranslate pre inputText chunks).progress = 100 ∧
    (handleTranslate pre inputText chunks).status = LoadingState.success := by
  refine ⟨loopState_growth inputText chunks, loopState_progress_mono chunks h,
    loopState_progress_le inputText chunks, ?_, ?_⟩
  · simp [handleTranslate, h]
  · simp [handleTranslate, h]

theorem translate_progress_invariants_witness :
    trimEmpty "hi" = false ∧
    ((∀ i, (loopState "hi" ["ab", "c"] (i + 1)).outputText
        = (loopState "hi" ["ab", "c"] i).outputText ++ ["ab", "c"].getD i "") ∧
    (∀ i, (loopState "hi" ["ab", "c"] i).progress
        ≤ (loopState "hi" ["ab", "c"] (i + 1)).progress) ∧
    (∀ i, (loopState "hi" ["ab", "c"] i).progress ≤ 95) ∧
    (handleTranslate ⟨.idle, "", 0⟩ "hi" ["ab", "c"]).progress = 100 ∧
    (handleTranslate ⟨.idle, "", 0⟩ "hi" ["ab", "c"]).status = LoadingState.success) :=
  ⟨by decide, translate_progress_invariants ⟨.idle, "", 0⟩ "hi" ["ab", "c"] (by decide)⟩

/-- C5: on empty or whitespace-only input the translate handler returns
before any state change — zero fragments are produced, no error is raised
(the error path is likewise a no-op), the session state (in particular its
status) keeps its pre-call value, and no `setStatus` call happens at all. -/
theorem translate_whitespace_noop (pre : AppState) (inputText : String)
    (chunks : List String) (providerChunks : List (Option String))
    (h : trimEmpty inputText = true) :
    handleTranslate pre inputText chunks = pre ∧
    handleTranslateError pre inputText chunks = pre ∧
    translateTextStream inputText providerChunks = [] ∧
    statusSets inputText false = [] ∧ statusSets inputText true = [] := by
  refine ⟨?_, ?_, ?_, ?_, ?_⟩ <;>
    simp [handleTranslate, handleTranslateError, translateTextStream, statusSets, h]

theorem translate_whitespace_noop_witness :
    trimEmpty " \t\n" = true ∧
    (handleTranslate ⟨.success, "old", 100⟩ " \t\n" ["x"] = ⟨.success, "old", 100⟩ ∧
    handleTranslateError ⟨.success, "old", 100⟩ " \t\n" ["x"] = ⟨.success, "old", 100⟩ ∧
    translateTextStream " \t\n" [some "x"] = [] ∧
    statusSets " \t\n" false = [] ∧ statusSets " \t\n" true = []) :=
  ⟨by decide,
    translate_whitespace_noop ⟨.success, "old", 100⟩ " \t\n" ["x"] [some "x"] (by decide)⟩

/-- C6: when the provider stream throws after some fragments were consumed,
the session ends in the `error` status, set exactly once, and the
accumulated text is exactly the concatenation of the successfully appended
fragments — identical to the loop state after the last successful append,
so no partial output is discarded. -/
theorem translate_error_state (pre : AppState) (inputText : String)
    (consumed : List String) (h : trimEmpty inputText = false) :
    (handleTranslateError pre inputText consumed).status = LoadingState.error ∧
    (handleTranslateError pre inputText consumed).outputText
      = (loopState inputText consumed consumed.length).outputText ∧
    (handleTranslateError pre inputText consumed).outputText = String.join consumed ∧
    (statusSets inputText true).count LoadingState.error = 1 := by
  refine ⟨?_, ?_, ?_, ?_⟩
  · simp [handleTranslateError, h]
  · simp [handleTranslateError, h]
  · simp [handleTranslateError, h, loopState_outputText, List.take_length]
  · simp [statusSets, h, List.count_cons]

theorem translate_error_state_witness :
    trimEmpty "hi" = false ∧
    ((handleTranslateError ⟨.idle, "", 0⟩ "hi" ["ab", "c"]).status = LoadingState.error ∧
    (handleTranslateError ⟨.idle, "", 0⟩ "hi" ["ab", "c"]).outputText
      = (loopState "hi" ["ab", "c"] (["ab", "c"] : List String).length).outputText ∧
    (handleTranslateError ⟨.idle, "", 0⟩ "hi" ["ab", "c"]).outputText
      = String.join ["ab", "c"] ∧
    (statusSets "hi" true).count LoadingState.error = 1) :=
  ⟨by decide, translate_error_state ⟨.idle, "", 0⟩ "hi" ["ab", "c"] (by decide)⟩

theorem intercalate_go_append (s x y : String) (l : List String) :
    String.intercalate.go (x ++ y) s l = x ++ String.intercalate.go y s l := by
  induction l generalizing y with
  | nil => rfl
  | cons a t ih =>
    rw [show String.intercalate.go (x ++ y) s (a :: t)
        = String.intercalate.go (x ++ y ++ s ++ a) s t from rfl,
      show String.intercalate.go y s (a :: t)
        = String.intercalate.go (y ++ s ++ a) s t from rfl]
    simp only [String.append_assoc]
    rw [ih]

theorem intercalate_cons_cons (s a b : String) (m : List String) :
    String.intercalate s (a :: b :: m) = a ++ s ++ String.intercalate s (b :: m) := by
  show String.intercalate.go a s (b :: m) = a ++ s ++ String.intercalate.go b s m
  rw [show String.intercalate.go a s (b :: m)
      = String.intercalate.go (a ++ s ++ b) s m from rfl]
  exact intercalate_go_append s (a ++ s) b m

theorem readPdfGo_text (N : Nat) (pages : List (List String)) :
    ∀ k, pages ≠ [] →
      (readPdfGo N k pages).1
        = String.intercalate "\n\n" (pages.map (String.intercalate " ")) ++ "\n\n" := by
  induction pages with
  | nil => intro k h; cases h rfl
  | cons p rest ih =>
    intro k _
    cases rest with
    | nil =>
      show String.intercalate " " p ++ "\n\n" ++ (readPdfGo N (k + 1) []).1 = _
      rw [show (readPdfGo N (k + 1) []).1 = "" from rfl, String.append_empty,
        List.map_cons, List.map_nil,
        show String.intercalate "\n\n" [String.intercalate " " p]
          = String.intercalate " " p from rfl]
    | cons q rest2 =>
      show String.intercalate " " p ++ "\n\n" ++ (readPdfGo N (k + 1) (q :: rest2)).1 = _
      rw [ih (k + 1) (by simp)]
      simp only [List.map_cons]
      rw [intercalate_cons_cons]
      simp only [String.append_assoc]

theorem readPdfGo_progress (N : Nat) (pages : List (List String)) :
    ∀ k, (readPdfGo N k pages).2
      = (List.range pages.length).map
          fun j => jsRound (((k + j : Nat) : ℚ) / (N : ℚ) * 100) := by
  induction pages with
  | nil => intro k; rfl
  | cons p rest ih =>
    intro k
    show jsRound ((k : ℚ) / (N : ℚ) * 100) :: (readPdfGo N (k + 1) rest).2 = _
    rw [ih (k + 1), List.length_cons, List.range_succ_eq_map, List.map_cons,
      List.map_map]
    refine congrArg₂ _ ?_ ?_
    · norm_num
    · refine List.map_congr_left fun j _ => ?_
      have : k + 1 + j = k + (j + 1) := by omega
      rw [Function.comp_apply, Nat.succ_eq_add_one, this]

/-- C2: for a PDF with N ≥ 1 pages, extraction concatenates the pages in
document order — each page's text fragments joined by a single space, a
double line-break between consecutive pages (and one after the last) —
emits exactly N progress updates, the i-th (1-based) equal to
`Math.round(i / N * 100)`, and the final update is 100. -/
theorem readPdfAsText_spec (pages : List (List String)) (h : 0 < pages.length) :
    (readPdfAsText pages).1
      = String.intercalate "\n\n" (pages.map (String.intercalate " ")) ++ "\n\n" ∧
    (readPdfAsText pages).2.length = pages.length ∧
    (∀ i, i < pages.length →
      (readPdfAsText pages).2.getD i 0
        = jsRound (((i + 1 : Nat) : ℚ) / (pages.length : ℚ) * 100)) ∧
    (readPdfAsText pages).2.getD (pages.length - 1) 0 = 100 := by
  have hne : pages ≠ [] := by
    intro he
    rw [he] at h
    simp at h
  have hget : ∀ i, i < pages.length →
      (readPdfAsText pages).2.getD i 0
        = jsRound (((i + 1 : Nat) : ℚ) / (pages.length : ℚ) * 100) := by
    intro i hi
    rw [readPdfAsText, readPdfGo_progress pages.length pages 1,
      List.getD_eq_getElem?_getD, List.getElem?_map, List.getElem?_range hi]
    have h1 : 1 + i = i + 1 := by omega
    simp only [Option.map_some', Option.getD_some]
    rw [h1]
  refine ⟨readPdfGo_text pages.length pages 1 hne, ?_, hget, ?_⟩
  · rw [readPdfAsText, readPdfGo_progress pages.length pages 1, List.length_map,
      List.length_range]
  · rw [hget (pages.length - 1) (by omega)]
    have hsub : pages.length - 1 + 1 = pages.length := by omega
    rw [hsub]
    have hN : ((pages.length : ℚ)) ≠ 0 := by
      exact_mod_cast Nat.pos_iff_ne_zero.mp h
    rw [div_self hN, one_mul]
    unfold jsRound
    rw [show ((100 : ℚ) + 1 / 2).floor = ⌊(100 : ℚ) + 1 / 2⌋ from rfl]
    rw [Int.floor_eq_iff]
    norm_num

theorem readPdfAsText_spec_witness :
    0 < ([["a", "b"], ["c"]] : List (List String)).length ∧
    ((readPdfAsText [["a", "b"], ["c"]]).1
      = String.intercalate "\n\n"
          (([["a", "b"], ["c"]] : List (List String)).map (String.intercalate " ")) ++ "\n\n" ∧
    (readPdfAsText [["a", "b"], ["c"]]).2.length
      = ([["a", "b"], ["c"]] : List (List String)).length ∧
    (∀ i, i < ([["a", "b"], ["c"]] : List (List String)).length →
      (readPdfAsText [["a", "b"], ["c"]]).2.getD i 0
        = jsRound (((i + 1 : Nat) : ℚ)
            / (([["a", "b"], ["c"]] : List (List String)).length : ℚ) * 100)) ∧
    (readPdfAsText [["a", "b"], ["c"]]).2.getD
      (([["a", "b"], ["c"]] : List (List String)).length - 1) 0 = 100) :=
  ⟨by decide, readPdfAsText_spec [["a", "b"], ["c"]] (by decide)⟩

theorem downloadFile_plain (content filename extension : String)
    (h1 : safeExtension extension ≠ ".pdf")
    (h2 : safeExtension extension ≠ ".docx")
    (h3 : safeExtension extension ≠ ".doc") :
    downloadFile content filename extension
      = Artifact.download ("\uFEFF" ++ content)
          (plainMimeType (safeExtension extension) ++ ";charset=utf-8")
          (filename ++ safeExtension extension) := by
  unfold downloadFile
  rw [if_neg h1, if_neg (by simp [h2, h3])]

/-- C4: for every content string and every extension that is neither the
print (`.pdf`) nor the rich-document (`.docx`/`.doc`) kind, the exported
artifact's payload is the byte-order marker followed by the content
verbatim — dropping the BOM recovers exactly the input characters — and in
particular `"Line1\n\nLine2"` exported to `.txt` round-trips literally. -/
theorem plain_export_roundtrip (content filename extension : String)
    (h1 : safeExtension extension ≠ ".pdf")
    (h2 : safeExtension extension ≠ ".docx")
    (h3 : safeExtension extension ≠ ".doc") :
    downloadFile content filename extension
      = Artifact.download ("\uFEFF" ++ content)
          (plainMimeType (safeExtension extension) ++ ";charset=utf-8")
          (filename ++ safeExtension extension) ∧
    ("\uFEFF" ++ content).data.tail = content.data ∧
    downloadFile "Line1\n\nLine2" "f" ".txt"
      = Artifact.download ("\uFEFF" ++ "Line1\n\nLine2") "text/plain;charset=utf-8"
          "f.txt" := by
  refine ⟨downloadFile_plain content filename extension h1 h2 h3, rfl, by decide⟩

theorem plain_export_roundtrip_witness :
    (safeExtension ".txt" ≠ ".pdf" ∧ safeExtension ".txt" ≠ ".docx" ∧
      safeExtension ".txt" ≠ ".doc") ∧
    (downloadFile "Line1\n\nLine2" "f" ".txt"
      = Artifact.download ("\uFEFF" ++ "Line1\n\nLine2")
          (plainMimeType (safeExtension ".txt") ++ ";charset=utf-8")
          ("f" ++ safeExtension ".txt") ∧
    ("\uFEFF" ++ "Line1\n\nLine2").data.tail = "Line1\n\nLine2".data ∧
    downloadFile "Line1\n\nLine2" "f" ".txt"
      = Artifact.download ("\uFEFF" ++ "Line1\n\nLine2") "text/plain;charset=utf-8"
          "f.txt") :=
  ⟨⟨by decide, by decide, by decide⟩,
    plain_export_roundtrip "Line1\n\nLine2" "f" ".txt" (by decide) (by decide) (by decide)⟩

/-- C8: the plain/markup branch's extension-to-MIME mapping covers the whole
supported export set — each supported extension that is not the print or
rich-document kind is exported through the plain branch with its mapped MIME
type (`.txt`/`.srt`/`.vtt` through the `text/plain` default), and any
extension outside the mapping falls back to the plain-text branch with a
`text/plain` container, so export succeeds on every input. -/
theorem export_mime_exhaustive :
    (plainMimeType ".txt" = "text/plain" ∧ plainMimeType ".md" = "text/markdown" ∧
      plainMimeType ".json" = "application/json" ∧ plainMimeType ".html" = "text/html" ∧
      plainMimeType ".csv" = "text/csv" ∧ plainMimeType ".xml" = "text/xml" ∧
      plainMimeType ".srt" = "text/plain" ∧ plainMimeType ".vtt" = "text/plain") ∧
    (∀ ext ∈ EXPORT_EXTENSIONS, ext ≠ ".pdf" → ext ≠ ".docx" →
      ∀ content filename, downloadFile content filename ext
        = Artifact.download ("\uFEFF" ++ content)
            (plainMimeType ext ++ ";charset=utf-8") (filename ++ ext)) ∧
    (∀ ext : String, ext ∉ ([".json", ".html", ".csv", ".xml", ".md"] : List String) →
      plainMimeType ext = "text/plain") ∧
    (∀ content filename extension : String,
      safeExtension extension
          ∉ ([".pdf", ".docx", ".doc", ".json", ".html", ".csv", ".xml", ".md"] :
            List String) →
      downloadFile content filename extension
        = Artifact.download ("\uFEFF" ++ content) ("text/plain;charset=utf-8")
            (filename ++ safeExtension extension)) := by
  refine ⟨⟨by decide, by decide, by decide, by decide, by decide, by decide, by decide,
    by decide⟩, ?_, ?_, ?_⟩
  · intro ext hmem h1 h2 content filename
    have hplain : ∀ e : String, safeExtension e = e → e ≠ ".pdf" → e ≠ ".docx" →
        e ≠ ".doc" → downloadFile content filename e
          = Artifact.download ("\uFEFF" ++ content)
              (plainMimeType e ++ ";charset=utf-8") (filename ++ e) := by
      intro e hs hp hd hc
      have := downloadFile_plain content filename e
        (by rw [hs]; exact hp) (by rw [hs]; exact hd) (by rw [hs]; exact hc)
      rwa [hs] at this
    simp only [EXPORT_EXTENSIONS, List.mem_cons, List.not_mem_nil, or_false] at hmem
    rcases hmem with rfl | rfl | rfl | rfl | rfl | rfl | rfl | rfl | rfl | rfl
    · exact hplain ".txt" (by decide) (by decide) (by decide) (by decide)
    · exact hplain ".md" (by decide) (by decide) (by decide) (by decide)
    · exact hplain ".json" (by decide) (by decide) (by decide) (by decide)
    · exact hplain ".html" (by decide) (by decide) (by decide) (by decide)
    · exact hplain ".csv" (by decide) (by decide) (by decide) (by decide)
    · exact hplain ".xml" (by decide) (by decide) (by decide) (by decide)
    · exact hplain ".srt" (by decide) (by decide) (by decide) (by decide)
    · exact hplain ".vtt" (by decide) (by decide) (by decide) (by decide)
    · exact absurd rfl h1
    · exact absurd rfl h2
  · intro ext hmem
    simp only [List.mem_cons, List.not_mem_nil, or_false, not_or] at hmem
    obtain ⟨e1, e2, e3, e4, e5⟩ := hmem
    simp [plainMimeType, e1, e2, e3, e4, e5]
  · intro content filename extension hmem
    simp only [List.mem_cons, List.not_mem_nil, or_false, not_or] at hmem
    obtain ⟨e1, e2, e3, e4, e5, e6, e7, e8⟩ := hmem
    rw [downloadFile_plain content filename extension e1 e2 e3]
    rw [show plainMimeType (safeExtension extension) = "text/plain" from by
      simp [plainMimeType, e4, e5, e6, e7, e8]]
    rw [show ("text/plain" ++ ";charset=utf-8" : String) = "text/plain;charset=utf-8" from by
      decide]

theorem export_mime_exhaustive_witness :
    ((".md" : String) ∈ EXPORT_EXTENSIONS ∧ (".md" : String) ≠ ".pdf" ∧
      (".md" : String) ≠ ".docx") ∧
    downloadFile "hello" "f" ".md"
      = Artifact.download ("\uFEFF" ++ "hello")
          (plainMimeType ".md" ++ ";charset=utf-8") ("f" ++ ".md") :=
  ⟨⟨by decide, by decide, by decide⟩,
    export_mime_exhaustive.2.1 ".md" (by decide) (by decide) (by decide) "hello" "f"⟩

theorem docxParagraphList_length (content : String) :
    (docxParagraphList content).length = (splitNewlines content).length := by
  unfold docxParagraphList
  rw [List.length_map]

theorem docxParagraphList_getD (content : String) {i : Nat}
    (hi : i < (splitNewlines content).length) :
    (docxParagraphList content).getD i ""
      = if trimEmpty ((splitNewlines content).getD i "") then "<p>&nbsp;</p>"
        else docxParagraph (if containsPersian content then "right" else "left")
          (if containsPersian content then "rtl" else "ltr")
          ((splitNewlines content).getD i "") := by
  unfold docxParagraphList
  rw [List.getD_eq_getElem?_getD, List.getElem?_map, List.getElem?_eq_getElem hi,
    Option.map_some', Option.getD_some,
    List.getD_eq_getElem?_getD, List.getElem?_eq_getElem hi, Option.getD_some]

/-- C9: the Word (rich-document) export splits the content on `'\n'` and maps
every line — a non-blank line becomes exactly one paragraph element carrying
explicit `align` and `dir` attributes, a blank line becomes the explicit
spacing marker `<p>&nbsp;</p>` rather than being dropped — so the number of
emitted elements equals the number of input lines, and the artifact embeds
exactly these elements. -/
theorem rich_export_line_mapping (content : String) :
    (docxParagraphList content).length = (splitNewlines content).length ∧
    (∀ i, i < (splitNewlines content).length →
      (trimEmpty ((splitNewlines content).getD i "") = true →
        (docxParagraphList content).getD i "" = "<p>&nbsp;</p>") ∧
      (trimEmpty ((splitNewlines content).getD i "") = false →
        (docxParagraphList content).getD i ""
          = docxParagraph (if containsPersian content then "right" else "left")
              (if containsPersian content then "rtl" else "ltr")
              ((splitNewlines content).getD i ""))) ∧
    (∀ filename, downloadFile content filename ".docx"
      = Artifact.download
          ("\uFEFF" ++ (docxHeader (containsPersian content)
            ++ String.join (docxParagraphList content) ++ "</body></html>"))
          wordMime (filename ++ ".docx")) := by
  refine ⟨docxParagraphList_length content, ?_, ?_⟩
  · intro i hi
    constructor
    · intro hb
      rw [docxParagraphList_getD content hi, if_pos hb]
    · intro hb
      rw [docxParagraphList_getD content hi,
        if_neg (by rw [hb]; exact Bool.false_ne_true)]
  · intro filename
    unfold downloadFile
    rw [show safeExtension ".docx" = ".docx" from by decide]
    rw [if_neg (by decide), if_pos (by decide)]

theorem rich_export_line_mapping_witness :
    (docxParagraphList "Line1\n\nLine2").length
      = (splitNewlines "Line1\n\nLine2").length ∧
    (∀ i, i < (splitNewlines "Line1\n\nLine2").length →
      (trimEmpty ((splitNewlines "Line1\n\nLine2").getD i "") = true →
        (docxParagraphList "Line1\n\nLine2").getD i "" = "<p>&nbsp;</p>") ∧
      (trimEmpty ((splitNewlines "Line1\n\nLine2").getD i "") = false →
        (docxParagraphList "Line1\n\nLine2").getD i ""
          = docxParagraph
              (if containsPersian "Line1\n\nLine2" then "right" else "left")
              (if containsPersian "Line1\n\nLine2" then "rtl" else "ltr")
              ((splitNewlines "Line1\n\nLine2").getD i ""))) ∧
    (∀ filename, downloadFile "Line1\n\nLine2" filename ".docx"
      = Artifact.download
          ("\uFEFF" ++ (docxHeader (containsPersian "Line1\n\nLine2")
            ++ String.join (docxParagraphList "Line1\n\nLine2") ++ "</body></html>"))
          wordMime (filename ++ ".docx")) :=
  rich_export_line_mapping "Line1\n\nLine2"

/-- C1 is refuted as stated: the claim says the direction attribute of each
paragraph is decided per physical line independently, but the code computes
`isRtl` once from the whole content.  For the mixed-direction content
`"a\nب"` the first line `"a"` has no Arabic/Persian character, yet its
paragraph carries `dir="rtl"`, and the code's paragraph list differs from
the per-line one the claim describes. -/
theorem direction_per_line_counterexample :
    containsPersian "a" = false ∧
    (docxParagraphList "a\nب").getD 0 "" = docxParagraph "right" "rtl" "a" ∧
    docxParagraphList "a\nب" ≠ docxParagraphListPerLine "a\nب" := by
  decide

/-- C1 (amended): the direction of the export is determined by script
detection once for the whole content — if the content contains any character
in the Arabic/Persian block U+0600–U+06FF every paragraph of the Word export
carries `dir="rtl"` with right alignment (and the print export uses an rtl
document with a Persian font), otherwise everything is ltr; the decision is
document-level, not per physical line. -/
theorem direction_detection_global (content filename : String) :
    (∀ i, i < (splitNewlines content).length →
      trimEmpty ((splitNewlines content).getD i "") = false →
      (docxParagraphList content).getD i ""
        = docxParagraph (if containsPersian content then "right" else "left")
            (if containsPersian content then "rtl" else "ltr")
            ((splitNewlines content).getD i "")) ∧
    (containsPersian content = true ↔
      ∃ c ∈ content.data, 0x0600 ≤ c.toNat ∧ c.toNat ≤ 0x06FF) ∧
    downloadFile content filename ".pdf"
      = Artifact.printPage (if containsPersian content then "rtl" else "ltr")
          (if containsPersian content then "right" else "left")
          (if containsPersian content then "\x27Vazirmatn\x27, sans-serif"
            else "\x27Inter\x27, sans-serif")
          (pdfFormattedContent content) filename := by
  refine ⟨?_, ?_, ?_⟩
  · intro i hi hb
    rw [docxParagraphList_getD content hi,
      if_neg (by rw [hb]; exact Bool.false_ne_true)]
  · simp [containsPersian, List.any_eq_true]
  · unfold downloadFile
    rw [show safeExtension ".pdf" = ".pdf" from by decide, if_pos rfl]

theorem direction_detection_global_witness :
    (∀ i, i < (splitNewlines "سلام\nhi").length →
      trimEmpty ((splitNewlines "سلام\nhi").getD i "") = false →
      (docxParagraphList "سلام\nhi").getD i ""
        = docxParagraph (if containsPersian "سلام\nhi" then "right" else "left")
            (if containsPersian "سلام\nhi" then "rtl" else "ltr")
            ((splitNewlines "سلام\nhi").getD i "")) ∧
    (containsPersian "سلام\nhi" = true ↔
      ∃ c ∈ "سلام\nhi".data, 0x0600 ≤ c.toNat ∧ c.toNat ≤ 0x06FF) ∧
    downloadFile "سلام\nhi" "f" ".pdf"
      = Artifact.printPage (if containsPersian "سلام\nhi" then "rtl" else "ltr")
          (if containsPersian "سلام\nhi" then "right" else "left")
          (if containsPersian "سلام\nhi" then "\x27Vazirmatn\x27, sans-serif"
            else "\x27Inter\x27, sans-serif")
          (pdfFormattedContent "سلام\nhi") "f" :=
  direction_detection_global "سلام\nhi" "f"

end ProTranslate
